import Mathlib

/-!
Shallow embedding of the transcription pipeline of the Obsidian
system-audio recorder plugin (src/main.ts), covering:

* the per-sample 16-bit PCM conversions (`floatTo16BitPCM`,
  `convertFloat32ToInt16`, src/main.ts lines 1189-1196 and 1263-1268);
* the linear-interpolation resampler and WAV file construction
  (`createWavFile`, lines 1198-1238);
* transcript deduplication (`deduplicateTranscription`, lines 672-684);
* the transcription queue state machine (`queueTranscription` /
  `processTranscriptionQueue`, lines 641-670) and the drain wait in
  `stopTranscription` (lines 964-993);
* the per-chunk transcript update of `transcribeAudioChunk`
  (lines 837-902) and its temp-file control flow;
* the 2-second chunk accumulation in `startLocalTranscription`
  (lines 583-632).

JavaScript numbers are modelled by exact rationals; the JS-specific
rounding primitives `Math.round` and the int16 store truncation are made
explicit as `jsRound` and `jsTrunc`.
-/

namespace SysAudio

/-- JS `Math.round`: round half toward positive infinity. -/
def jsRound (q : ℚ) : ℤ := ⌊q + 1/2⌋

/-- Truncation toward zero, as performed when a JS number is stored through
`DataView.setInt16` or into an `Int16Array`. -/
def jsTrunc (q : ℚ) : ℤ := if 0 ≤ q then ⌊q⌋ else ⌈q⌉

/-- Per-sample conversion of `floatTo16BitPCM` (src/main.ts lines 1263-1268):
`const s = Math.max(-1, Math.min(1, input[i]));
 output.setInt16(offset, s < 0 ? s * 0x8000 : s * 0x7fff, true);` -/
def floatTo16BitPCMSample (x : ℚ) : ℤ :=
  let s := max (-1) (min 1 x)
  if s < 0 then jsTrunc (s * 32768) else jsTrunc (s * 32767)

/-- Per-sample conversion of `convertFloat32ToInt16` (src/main.ts lines
1189-1196): `buf[l] = Math.min(1, Math.max(-1, buffer[l])) * 0x7fff;`
stored into an `Int16Array`. -/
def convertFloat32ToInt16Sample (x : ℚ) : ℤ :=
  jsTrunc (min 1 (max (-1) x) * 32767)

/-- Model of `convertFloat32ToInt16` (src/main.ts lines 1189-1196) on a whole buffer. -/
def convertFloat32ToInt16 (buffer : List ℚ) : List ℤ :=
  buffer.map convertFloat32ToInt16Sample

section StringModel

/-- Whitespace predicate of JS `String.prototype.trim` (restricted to the
code points that occur in recognizer output): space, tab, LF, CR, VT, FF. -/
def jsWhitespace (c : Char) : Bool :=
  c == ' ' || c == '\t' || c == '\n' || c == '\r' ||
  c == Char.ofNat 11 || c == Char.ofNat 12

/-- JS `String.prototype.trim` on a string modelled as a list of characters. -/
def jsTrim (s : List Char) : List Char :=
  ((s.dropWhile jsWhitespace).reverse.dropWhile jsWhitespace).reverse

/-- JS `String.prototype.toLowerCase`, modelled character-wise (ASCII). -/
def jsToLower (s : List Char) : List Char := s.map Char.toLower

/-- Composite `x.toLowerCase().trim()` used by `deduplicateTranscription`. -/
def lowerTrim (s : List Char) : List Char := jsTrim (jsToLower s)

/-- Model of `deduplicateTranscription` (src/main.ts lines 672-684).  The JS guard
`this.lastTranscriptionText && newText.toLowerCase().trim() ===
this.lastTranscriptionText.toLowerCase().trim()` is truthy exactly when
`lastTranscriptionText` is non-empty and the lowercased-trimmed strings
are equal; then the empty string is returned, otherwise `newText`. -/
def deduplicateTranscription (lastTranscriptionText newText : List Char) :
    List Char :=
  if lastTranscriptionText ≠ [] ∧ lowerTrim newText = lowerTrim lastTranscriptionText
  then []
  else newText

end StringModel

section Wav

/-- Output length of the resampler in `createWavFile` (src/main.ts line 1201):
`const ratio = this.sampleRate / targetSampleRate;
 const newLength = Math.round(audioData.length / ratio);` -/
def resampleLength (len sampleRate targetSampleRate : ℕ) : ℤ :=
  jsRound ((len : ℚ) / ((sampleRate : ℚ) / (targetSampleRate : ℚ)))

/-- Floor source index read at output index `i` (src/main.ts line 1206):
`const srcIndexFloor = Math.floor(srcIndex);` with `srcIndex = i * ratio`. -/
def srcIndexFloor (i sampleRate targetSampleRate : ℕ) : ℤ :=
  ⌊(i : ℚ) * ((sampleRate : ℚ) / (targetSampleRate : ℚ))⌋

/-- Clamped second source index read at output index `i` (line 1207):
`const srcIndexCeil = Math.min(srcIndexFloor + 1, audioData.length - 1);` -/
def srcIndexCeil (len i sampleRate targetSampleRate : ℕ) : ℤ :=
  min (srcIndexFloor i sampleRate targetSampleRate + 1) ((len : ℤ) - 1)

/-- The linear-interpolation resampler of `createWavFile` (lines 1200-1213).
List reads use `getD _ 0`; the bounds theorems show every index the source
dereferences lies inside the buffer, so the default is never consulted on
the inputs the code runs on. -/
def resample (audioData : List ℚ) (sampleRate targetSampleRate : ℕ) : List ℚ :=
  (List.range (resampleLength audioData.length sampleRate targetSampleRate).toNat).map
    (fun (i : ℕ) =>
      let ratio : ℚ := (sampleRate : ℚ) / (targetSampleRate : ℚ)
      let srcIndex : ℚ := (i : ℚ) * ratio
      let f : ℤ := ⌊srcIndex⌋
      let c : ℤ := min (f + 1) ((audioData.length : ℤ) - 1)
      let t : ℚ := srcIndex - (f : ℚ)
      audioData.getD f.toNat 0 * (1 - t) + audioData.getD c.toNat 0 * t)

/-- Little-endian bytes of `DataView.setUint16` (higher bits wrap away). -/
def le16 (v : ℕ) : List ℕ := [v % 256, v / 256 % 256]

/-- Little-endian bytes of `DataView.setUint32` (higher bits wrap away). -/
def le32 (v : ℕ) : List ℕ :=
  [v % 256, v / 256 % 256, v / 65536 % 256, v / 16777216 % 256]

/-- Little-endian bytes of `DataView.setInt16` on an integer value:
two's-complement wrap into 16 bits, then two bytes. -/
def le16i (v : ℤ) : List ℕ := le16 (v % 65536).toNat

/-- Byte encoding of `writeString` (src/main.ts lines 1270-1274). -/
def asciiBytes (s : List Char) : List ℕ := s.map Char.toNat

/-- Full byte output of `createWavFile` (src/main.ts lines 1198-1238):
44-byte canonical mono PCM header followed by the 16-bit samples. -/
def createWavFile (audioData : List ℚ) (sampleRate targetSampleRate : ℕ) :
    List ℕ :=
  let resampled := resample audioData sampleRate targetSampleRate
  asciiBytes "RIFF".toList ++ le32 (36 + resampled.length * 2) ++
  asciiBytes "WAVE".toList ++ asciiBytes "fmt ".toList ++
  le32 16 ++ le16 1 ++ le16 1 ++
  le32 targetSampleRate ++ le32 (targetSampleRate * 2) ++
  le16 2 ++ le16 16 ++
  asciiBytes "data".toList ++ le32 (resampled.length * 2) ++
  (resampled.map (fun x => le16i (floatTo16BitPCMSample x))).flatten

/-- Byte output of `writeWavHeader` (src/main.ts lines 1240-1261), the
variant used when converting a finished recording, parameterised by the
`numChannels` and `sampleRate` fields. -/
def writeWavHeader (samples : List ℚ) (numChannels sampleRate : ℕ) : List ℕ :=
  asciiBytes "RIFF".toList ++ le32 (36 + samples.length * 2) ++
  asciiBytes "WAVE".toList ++ asciiBytes "fmt ".toList ++
  le32 16 ++ le16 1 ++ le16 numChannels ++
  le32 sampleRate ++ le32 (sampleRate * 4) ++
  le16 (numChannels * 2) ++ le16 16 ++
  asciiBytes "data".toList ++ le32 (samples.length * 2) ++
  (samples.map (fun x => le16i (floatTo16BitPCMSample x))).flatten

/-- Read a 16-bit little-endian field of a byte buffer. -/
def rd16 (bs : List ℕ) (off : ℕ) : ℕ := bs.getD off 0 + 256 * bs.getD (off + 1) 0

/-- Read a 32-bit little-endian field of a byte buffer. -/
def rd32 (bs : List ℕ) (off : ℕ) : ℕ :=
  bs.getD off 0 + 256 * bs.getD (off + 1) 0 + 65536 * bs.getD (off + 2) 0 +
    16777216 * bs.getD (off + 3) 0

/-- Sample count recovered by a WAV header parser: data chunk size divided
by block size (channels times bytes per sample). -/
def parsedSampleCount (bs : List ℕ) : ℕ :=
  rd32 bs 40 / (rd16 bs 22 * (rd16 bs 34 / 8))

end Wav

section Queue

/-- State of the transcription queue machinery (src/main.ts lines 79-85):
the pending `transcriptionQueue` (chunks identified by index), the chunk
currently awaited inside `transcribeAudioChunk` (if any), the
`isProcessingQueue` flag, and the chunks whose `transcribeAudioChunk`
invocation has completed, in completion order. -/
structure QueueState where
  queue : List ℕ
  inFlight : Option ℕ
  isProcessingQueue : Bool
  processed : List ℕ
deriving DecidableEq

/-- One evaluation of the `while` loop head of `processTranscriptionQueue`
(src/main.ts lines 658-669): with a non-empty queue, `shift()` the front
chunk and hand it to `transcribeAudioChunk` (it becomes in flight, the JS
turn ends at the `await`); with an empty queue the loop exits and
`isProcessingQueue` is reset. -/
def processStep (s : QueueState) : QueueState :=
  match s.queue with
  | [] => { s with isProcessingQueue := false, inFlight := none }
  | c :: rest => { s with queue := rest, inFlight := some c, isProcessingQueue := true }

/-- Model of `queueTranscription` (src/main.ts lines 641-652): push the chunk, and
if no consumer loop is running, start `processTranscriptionQueue`, which
synchronously sets the flag and runs to its first `await`. -/
def queueTranscription (s : QueueState) (c : ℕ) : QueueState :=
  let s' : QueueState := { s with queue := s.queue ++ [c] }
  if s'.isProcessingQueue then s'
  else processStep { s' with isProcessingQueue := true }

/-- Resumption after the awaited `transcribeAudioChunk` settles (fulfilled
or rejected; the `try`/`catch` at lines 661-665 makes both continue): the
chunk is recorded as processed and the loop head runs again. -/
def completeChunk (s : QueueState) : QueueState :=
  match s.inFlight with
  | none => s
  | some c => processStep { s with processed := s.processed ++ [c], inFlight := none }

/-- Events of the single-threaded JS event loop that touch the queue. -/
inductive QEvent where
  | enqueue (c : ℕ)
  | complete
deriving DecidableEq

def qstep (s : QueueState) : QEvent → QueueState
  | .enqueue c => queueTranscription s c
  | .complete => completeChunk s

def qinit : QueueState := ⟨[], none, false, []⟩

def qrun (es : List QEvent) : QueueState := es.foldl qstep qinit

/-- The chunks arriving at `queueTranscription`, in arrival order. -/
def arrivals (es : List QEvent) : List ℕ :=
  es.filterMap (fun e => match e with | .enqueue c => some c | .complete => none)

/-- The guard at src/main.ts line 973: `stopTranscription` enters its
drain-wait only when `this.transcriptionQueue.length > 0`. -/
def stopTranscriptionAwaitsDrain (s : QueueState) : Bool :=
  decide (0 < s.queue.length)

/-- The wait-loop condition at line 979:
`while (this.transcriptionQueue.length > 0 || this.isProcessingQueue)`.
The wait ends when this becomes false. -/
def stopWaitLoopContinues (s : QueueState) : Bool :=
  decide (0 < s.queue.length) || s.isProcessingQueue

/-- Full drain in the sense of the specification: empty queue and no chunk
in flight. -/
def drained (s : QueueState) : Prop := s.queue = [] ∧ s.inFlight = none

end Queue

section Transcript

/-- The two transcript accumulator fields (src/main.ts lines 81 and 85). -/
structure TranscriptState where
  transcriptionText : List Char
  lastTranscriptionText : List Char
deriving DecidableEq

/-- Outcome of one `transcribeAudioChunk` invocation, covering every exit
of the function body (src/main.ts lines 686-903). -/
inductive ChunkOutcome where
  | whisperNotFound
  | pythonWhisperDetected
  | modelNotFound
  | spawnError
  | nonZeroExit (code : ℤ)
  | outputFileMissing
  | success (rawText : List Char)
deriving DecidableEq

/-- Outcomes on which the function reaches its `catch` (lines 894-902) or
the missing-output branch (lines 870-881) instead of appending text. -/
def ChunkOutcome.isFailure : ChunkOutcome → Bool
  | .success _ => false
  | _ => true

def blankAudioMarker : List Char :=
  ['[', 'B', 'L', 'A', 'N', 'K', '_', 'A', 'U', 'D', 'I', 'O', ']']

/-- Global replacement of the noise marker, as in
`transcriptionText.replace(/\[BLANK_AUDIO\]/g, "")` (line 844):
left-to-right, non-overlapping. -/
def removeBlankAudio : List Char → List Char
  | [] => []
  | c :: cs =>
    if blankAudioMarker.isPrefixOf (c :: cs) then
      removeBlankAudio ((c :: cs).drop blankAudioMarker.length)
    else
      c :: removeBlankAudio cs
termination_by l => l.length
decreasing_by
  · simp only [List.length_drop, List.length_cons, blankAudioMarker]
    omega
  · simp

/-- Transcript update on the success path of `transcribeAudioChunk`
(src/main.ts lines 837-866): trim the file contents, strip the
`[BLANK_AUDIO]` markers, trim again; if the result is non-empty,
deduplicate against the previous chunk; if still non-empty, append it plus
a space and remember the chunk text. -/
def transcribeSuccessUpdate (st : TranscriptState) (rawFileContents : List Char) :
    TranscriptState :=
  let chunkText := jsTrim (removeBlankAudio (jsTrim rawFileContents))
  if chunkText ≠ [] then
    let newText := deduplicateTranscription st.lastTranscriptionText chunkText
    if newText ≠ [] then
      { transcriptionText := st.transcriptionText ++ newText ++ [' '],
        lastTranscriptionText := chunkText }
    else st
  else st

/-- Effect of one `transcribeAudioChunk` invocation on the transcript
fields.  Every non-success outcome lands in the missing-output branch
(lines 870-881) or the `catch` (lines 894-902), neither of which touches
`transcriptionText` or `lastTranscriptionText`. -/
def transcribeAudioChunkStep (st : TranscriptState) (o : ChunkOutcome) :
    TranscriptState :=
  match o with
  | .success raw => transcribeSuccessUpdate st raw
  | _ => st

/-- Draining the queue: `processTranscriptionQueue` hands every queued
chunk to `transcribeAudioChunk` in order; the `try`/`catch` at lines
661-665 makes the loop continue past a rejected chunk. -/
def processTranscriptionQueueRun (st : TranscriptState)
    (outcomes : List ChunkOutcome) : TranscriptState :=
  outcomes.foldl transcribeAudioChunkStep st

/-- Effect of `startTranscription` (src/main.ts line 558) on the
transcript fields: `this.transcriptionText = ""`. -/
def startTranscriptionReset (st : TranscriptState) : TranscriptState :=
  { st with transcriptionText := [] }

/-- Effect of `stopTranscription` (src/main.ts line 988) on the transcript
fields: `this.lastTranscriptionText = ""`. -/
def stopTranscriptionReset (st : TranscriptState) : TranscriptState :=
  { st with lastTranscriptionText := [] }

end Transcript

section TempFileFlow

/-- Which of the two per-chunk temp files remain on disk when
`transcribeAudioChunk` returns. -/
structure TempFiles where
  wavOnDisk : Bool
  txtOnDisk : Bool
deriving DecidableEq

/-- The cleanup block at src/main.ts lines 883-893: unlink the temp WAV and
the output text file when present. -/
def cleanupTempFiles (_ : TempFiles) : TempFiles := ⟨false, false⟩

/-- Whether an invocation that ends in the given outcome executes the
cleanup block.  The block sits inside the `try`, after the subprocess
`await` (line 883), so it runs only on the two non-throwing exits; a
thrown error transfers control directly to the `catch` at line 894, which
only logs and notifies. -/
def cleanupReached : ChunkOutcome → Bool
  | .outputFileMissing => true
  | .success _ => true
  | _ => false

/-- Temp files on disk after `transcribeAudioChunk` returns, per outcome,
following the body line by line: `whisperNotFound` throws at line 701
before the WAV is written at line 726; `modelNotFound` (line 737),
`pythonWhisperDetected` (line 754), a spawn error (line 815) and a
non-zero exit (line 807) all throw after the WAV exists, jumping to the
`catch` and skipping the cleanup; the missing-output branch and the
success path fall through to the cleanup at line 883. -/
def transcribeAudioChunkTempFiles (o : ChunkOutcome) : TempFiles :=
  match o with
  | .whisperNotFound => ⟨false, false⟩
  | .modelNotFound => ⟨true, false⟩
  | .pythonWhisperDetected => ⟨true, false⟩
  | .spawnError => ⟨true, false⟩
  | .nonZeroExit _ => ⟨true, false⟩
  | .outputFileMissing => cleanupTempFiles ⟨true, false⟩
  | .success _ => cleanupTempFiles ⟨true, true⟩

end TempFileFlow

section Capture

/-- The chunk size `const samplesPerChunk = this.sampleRate * 2;` (src/main.ts line 612). -/
def samplesPerChunk (sampleRate : ℕ) : ℕ := sampleRate * 2

/-- State of the chunk accumulator of `startLocalTranscription`: the
`transcriptionBuffer` array of sample buffers, and the chunks handed to
`queueTranscription` so far, in order. -/
structure CaptureState where
  transcriptionBuffer : List (List ℚ)
  enqueuedChunks : List (List ℚ)
deriving DecidableEq

/-- One `onaudioprocess` callback (src/main.ts lines 605-631): push the
mono buffer; if at least `samplesPerChunk` samples have accumulated,
concatenate, slice off exactly one chunk, keep the remainder (as a single
buffer, or an empty list when nothing remains), and enqueue the chunk. -/
def onAudioProcess (sampleRate : ℕ) (st : CaptureState) (monoData : List ℚ) :
    CaptureState :=
  let buf := st.transcriptionBuffer ++ [monoData]
  let totalSamples := (buf.map List.length).sum
  if samplesPerChunk sampleRate ≤ totalSamples then
    let combined := buf.flatten
    let audioChunk := combined.take (samplesPerChunk sampleRate)
    let remaining := combined.drop (samplesPerChunk sampleRate)
    { transcriptionBuffer := if 0 < remaining.length then [remaining] else [],
      enqueuedChunks := st.enqueuedChunks ++ [audioChunk] }
  else
    { transcriptionBuffer := buf, enqueuedChunks := st.enqueuedChunks }

/-- Feeding a stream of mono buffers to the callback, starting from the
empty accumulator set up by `startTranscription` (line 556). -/
def runCapture (sampleRate : ℕ) (buffers : List (List ℚ)) : CaptureState :=
  buffers.foldl (onAudioProcess sampleRate) ⟨[], []⟩

end Capture

/-! Theorems. -/

section NumericLemmas

theorem jsTrunc_nonneg_eq (q : ℚ) (h : 0 ≤ q) : jsTrunc q = ⌊q⌋ := by
  simp [jsTrunc, h]

theorem jsTrunc_neg_eq (q : ℚ) (h : ¬ 0 ≤ q) : jsTrunc q = ⌈q⌉ := by
  simp [jsTrunc, h]

theorem jsTrunc_between (q : ℚ) (lo hi : ℤ) (hlo : (lo : ℚ) ≤ q)
    (hhi : q ≤ (hi : ℚ)) (hlo0 : lo ≤ 0) (hhi0 : 0 ≤ hi) :
    lo ≤ jsTrunc q ∧ jsTrunc q ≤ hi := by
  by_cases h : 0 ≤ q
  · rw [jsTrunc_nonneg_eq q h]
    constructor
    · exact le_trans hlo0 (Int.le_floor.mpr (by exact_mod_cast h))
    · have := Int.floor_le_floor hhi
      simpa using this
  · rw [jsTrunc_neg_eq q h]
    constructor
    · have := Int.ceil_le_ceil hlo
      simpa using this
    · have hq : q ≤ 0 := le_of_not_le h
      exact le_trans (Int.ceil_le.mpr (by exact_mod_cast hq)) hhi0

end NumericLemmas

section C9

/-- Claim C9: for every input sample `x` (NaN aside, modelled exactly over
the rationals), the 16-bit PCM conversions clamp `x` to the interval from
-1 to 1 before scaling, so every emitted 16-bit sample lies in the
representable range from -32768 to 32767; `floatTo16BitPCM` maps any
`x ≤ -1` to -32768 and any `x ≥ 1` to 32767, and `convertFloat32ToInt16`
stays in range as well, so the WAV sample data never overflows a signed
16-bit integer. -/
theorem pcm16_conversion_clamped (x : ℚ) :
    (-32768 ≤ floatTo16BitPCMSample x ∧ floatTo16BitPCMSample x ≤ 32767) ∧
    (x ≤ -1 → floatTo16BitPCMSample x = -32768) ∧
    (1 ≤ x → floatTo16BitPCMSample x = 32767) ∧
    (-32768 ≤ convertFloat32ToInt16Sample x ∧
      convertFloat32ToInt16Sample x ≤ 32767) := by
  have hs1 : (-1 : ℚ) ≤ max (-1) (min 1 x) := le_max_left _ _
  have hs2 : max (-1 : ℚ) (min 1 x) ≤ 1 := max_le (by norm_num) (min_le_left _ _)
  have hc1 : (-1 : ℚ) ≤ min 1 (max (-1) x) := le_min (by norm_num) (le_max_left _ _)
  have hc2 : min 1 (max (-1 : ℚ) x) ≤ 1 := min_le_left _ _
  refine ⟨?_, ?_, ?_, ?_⟩
  · rw [floatTo16BitPCMSample]
    by_cases hneg : max (-1 : ℚ) (min 1 x) < 0
    · simp only [hneg, if_true]
      exact jsTrunc_between _ (-32768) 32767
        (by push_cast; nlinarith) (by push_cast; nlinarith) (by norm_num) (by norm_num)
    · simp only [hneg, if_false]
      have h0 : (0 : ℚ) ≤ max (-1) (min 1 x) := le_of_not_lt hneg
      exact jsTrunc_between _ (-32768) 32767
        (by push_cast; nlinarith) (by push_cast; nlinarith) (by norm_num) (by norm_num)
  · intro hx
    have hmin : min (1 : ℚ) x = x := min_eq_right (le_trans hx (by norm_num))
    have hmax : max (-1 : ℚ) x = -1 := max_eq_left hx
    rw [floatTo16BitPCMSample]
    simp only [hmin, hmax]
    rw [if_pos (by norm_num)]
    rw [jsTrunc_neg_eq _ (by norm_num)]
    rw [show ((-1 : ℚ) * 32768) = ((-32768 : ℤ) : ℚ) by norm_num, Int.ceil_intCast]
  · intro hx
    have hmin : min (1 : ℚ) x = 1 := min_eq_left hx
    rw [floatTo16BitPCMSample]
    simp only [hmin]
    rw [show max (-1 : ℚ) 1 = 1 by norm_num]
    rw [if_neg (by norm_num)]
    rw [jsTrunc_nonneg_eq _ (by norm_num)]
    rw [show ((1 : ℚ) * 32767) = ((32767 : ℤ) : ℚ) by norm_num, Int.floor_intCast]
  · rw [convertFloat32ToInt16Sample]
    exact jsTrunc_between _ (-32768) 32767
      (by push_cast; nlinarith) (by push_cast; nlinarith) (by norm_num) (by norm_num)

theorem pcm16_conversion_clamped_witness :
    floatTo16BitPCMSample (-2) = -32768 ∧ floatTo16BitPCMSample 2 = 32767 :=
  ⟨(pcm16_conversion_clamped (-2)).2.1 (by norm_num),
   (pcm16_conversion_clamped 2).2.2.1 (by norm_num)⟩

end C9

section C5

/-- Claim C5: `deduplicateTranscription` returns the empty string exactly
when the previously stored chunk text is non-empty and equals the new text
under lowercase-and-trim comparison, and otherwise returns the new text
unchanged (the biconditional stated for the non-empty chunk texts the
caller at src/main.ts line 847 passes in). -/
theorem deduplicateTranscription_spec (last new : List Char) :
    ((last ≠ [] ∧ lowerTrim new = lowerTrim last) →
      deduplicateTranscription last new = []) ∧
    (¬(last ≠ [] ∧ lowerTrim new = lowerTrim last) →
      deduplicateTranscription last new = new) ∧
    (new ≠ [] →
      (deduplicateTranscription last new = [] ↔
        (last ≠ [] ∧ lowerTrim new = lowerTrim last))) := by
  by_cases h : last ≠ [] ∧ lowerTrim new = lowerTrim last
  · simp [deduplicateTranscription, h]
  · have hres : deduplicateTranscription last new = new := by
      rw [deduplicateTranscription, if_neg h]
    refine ⟨fun hc => absurd hc h, fun _ => hres, fun hnew => ?_⟩
    rw [hres]
    exact ⟨fun he => absurd he hnew, fun hc => absurd hc h⟩

theorem deduplicateTranscription_spec_witness :
    deduplicateTranscription "Hello ".toList "hello".toList = [] :=
  (deduplicateTranscription_spec "Hello ".toList "hello".toList).1 (by decide)

end C5

section C3

/-- Claim C3 counterexample: for a 441-sample buffer captured at
`sampleRate` 44100 and resampled to `targetSampleRate` 16000, the code
(`newLength = Math.round(audioData.length / (sampleRate /
targetSampleRate))`, src/main.ts lines 1200-1201) produces 160 output
samples, not `round(len * A / B) = round(441 * 44100 / 16000) = 1216` as
the claim states. -/
theorem resampleLength_claim_counterexample :
    resampleLength 441 44100 16000 = 160 ∧
    jsRound ((441 : ℚ) * 44100 / 16000) = 1216 := by
  constructor
  · norm_num [resampleLength, jsRound]
  · norm_num [jsRound]

/-- Claim C3 (amended): for every non-empty source buffer of `len` samples
at capture rate `A` and every target rate `B` (both positive), the
resampler produces exactly `round(len * B / A)` output samples (the claim
had the ratio inverted: the code divides `len` by `A / B`), and every
source index it reads — `srcIndexFloor` and the clamped `srcIndexCeil` —
lies between 0 and `len - 1`. -/
theorem resample_output_count_and_bounds (len A B : ℕ)
    (hlen : 1 ≤ len) (hA : 1 ≤ A) (hB : 1 ≤ B) :
    resampleLength len A B = jsRound ((len : ℚ) * B / A) ∧
    ∀ i : ℕ, i < (resampleLength len A B).toNat →
      (0 ≤ srcIndexFloor i A B ∧ srcIndexFloor i A B ≤ (len : ℤ) - 1) ∧
      (0 ≤ srcIndexCeil len i A B ∧ srcIndexCeil len i A B ≤ (len : ℤ) - 1) := by
  have hAq : (0 : ℚ) < (A : ℚ) := by exact_mod_cast Nat.lt_of_lt_of_le Nat.zero_lt_one hA
  have hBq : (0 : ℚ) < (B : ℚ) := by exact_mod_cast Nat.lt_of_lt_of_le Nat.zero_lt_one hB
  have heq : (len : ℚ) / ((A : ℚ) / (B : ℚ)) = (len : ℚ) * B / A := by
    field_simp
  have hcount : resampleLength len A B = jsRound ((len : ℚ) * B / A) := by
    rw [resampleLength, heq]
  refine ⟨hcount, fun i hi => ?_⟩
  have hiz : (i : ℤ) < resampleLength len A B := by omega
  have hle : ((i : ℤ) + 1 : ℚ) ≤ (len : ℚ) * B / A + 1 / 2 := by
    have h1 : (i : ℤ) + 1 ≤ ⌊(len : ℚ) * B / A + 1 / 2⌋ := by
      rw [hcount, jsRound] at hiz
      omega
    exact_mod_cast Int.le_floor.mp h1
  have hhalf : (i : ℚ) ≤ (len : ℚ) * B / A - 1 / 2 := by
    push_cast at hle
    linarith
  have hsrc : (i : ℚ) * ((A : ℚ) / (B : ℚ)) < (len : ℚ) := by
    have hmul : (i : ℚ) * ((A : ℚ) / (B : ℚ)) ≤
        ((len : ℚ) * B / A - 1 / 2) * ((A : ℚ) / (B : ℚ)) :=
      mul_le_mul_of_nonneg_right hhalf (by positivity)
    have hval : ((len : ℚ) * B / A - 1 / 2) * ((A : ℚ) / (B : ℚ)) =
        (len : ℚ) - (A : ℚ) / (2 * B) := by
      field_simp
      ring
    rw [hval] at hmul
    have : (0 : ℚ) < (A : ℚ) / (2 * B) := by positivity
    linarith
  have hf0 : 0 ≤ srcIndexFloor i A B := by
    rw [srcIndexFloor]
    exact Int.floor_nonneg.mpr (by positivity)
  have hf1 : srcIndexFloor i A B ≤ (len : ℤ) - 1 := by
    have : srcIndexFloor i A B < (len : ℤ) := by
      rw [srcIndexFloor]
      exact Int.floor_lt.mpr (by exact_mod_cast hsrc)
    omega
  refine ⟨⟨hf0, hf1⟩, ?_, min_le_right _ _⟩
  exact le_min (by omega) (by omega)

theorem resample_output_count_and_bounds_witness :
    resampleLength 441 44100 16000 = jsRound ((441 : ℚ) * 16000 / 44100) ∧
    (0 ≤ srcIndexFloor 159 44100 16000 ∧
      srcIndexFloor 159 44100 16000 ≤ (441 : ℤ) - 1) := by
  have h := resample_output_count_and_bounds 441 44100 16000
    (by norm_num) (by norm_num) (by norm_num)
  have hb := h.2 159 (by norm_num [resampleLength, jsRound])
  exact ⟨h.1, hb.1⟩

end C3

section QueueLemmas

theorem qstep_enqueue_spec (s : QueueState) (c : ℕ)
    (h : s.inFlight.isSome = s.isProcessingQueue) :
    ((queueTranscription s c).inFlight.isSome =
        (queueTranscription s c).isProcessingQueue) ∧
    (queueTranscription s c).processed ++ (queueTranscription s c).inFlight.toList ++
        (queueTranscription s c).queue =
      s.processed ++ s.inFlight.toList ++ s.queue ++ [c] := by
  obtain ⟨q, fl, b, p⟩ := s
  cases b with
  | true =>
    constructor
    · simpa [queueTranscription] using h
    · simp [queueTranscription]
  | false =>
    cases fl with
    | some d => simp at h
    | none =>
      cases q with
      | nil => simp [queueTranscription, processStep]
      | cons d rest => simp [queueTranscription, processStep]

theorem qstep_complete_spec (s : QueueState)
    (h : s.inFlight.isSome = s.isProcessingQueue) :
    ((completeChunk s).inFlight.isSome = (completeChunk s).isProcessingQueue) ∧
    (completeChunk s).processed ++ (completeChunk s).inFlight.toList ++
        (completeChunk s).queue =
      s.processed ++ s.inFlight.toList ++ s.queue := by
  obtain ⟨q, fl, b, p⟩ := s
  cases fl with
  | none =>
    constructor
    · simpa [completeChunk] using h
    · simp [completeChunk]
  | some d =>
    cases q with
    | nil => simp [completeChunk, processStep]
    | cons e rest => simp [completeChunk, processStep]

theorem qrun_foldl_spec (es : List QEvent) :
    ∀ s : QueueState, s.inFlight.isSome = s.isProcessingQueue →
    ((es.foldl qstep s).inFlight.isSome = (es.foldl qstep s).isProcessingQueue) ∧
    (es.foldl qstep s).processed ++ (es.foldl qstep s).inFlight.toList ++
        (es.foldl qstep s).queue =
      s.processed ++ s.inFlight.toList ++ s.queue ++ arrivals es := by
  induction es with
  | nil =>
    intro s h
    refine ⟨h, ?_⟩
    simp [arrivals]
  | cons e rest ih =>
    intro s h
    cases e with
    | enqueue c =>
      have h1 := qstep_enqueue_spec s c h
      have h2 := ih (queueTranscription s c) h1.1
      refine ⟨h2.1, ?_⟩
      have hstep : List.foldl qstep s (QEvent.enqueue c :: rest) =
          List.foldl qstep (queueTranscription s c) rest := rfl
      rw [hstep, h2.2, h1.2]
      simp [arrivals, List.filterMap_cons]
    | complete =>
      have h1 := qstep_complete_spec s h
      have h2 := ih (completeChunk s) h1.1
      refine ⟨h2.1, ?_⟩
      have hstep : List.foldl qstep s (QEvent.complete :: rest) =
          List.foldl qstep (completeChunk s) rest := rfl
      rw [hstep, h2.2, h1.2]
      simp [arrivals, List.filterMap_cons]

theorem qrun_spec (es : List QEvent) :
    ((qrun es).inFlight.isSome = (qrun es).isProcessingQueue) ∧
    (qrun es).processed ++ (qrun es).inFlight.toList ++ (qrun es).queue =
      arrivals es := by
  have h := qrun_foldl_spec es qinit rfl
  simpa [qrun, qinit] using h

end QueueLemmas

section C1

/-- Claim C1: over every event trace of the single-threaded runtime, the
queue machinery keeps at most one `transcribeAudioChunk` invocation in
flight (the `inFlight` option of the model, which is occupied exactly when
`isProcessingQueue` is set — the flag guards re-entrant loop starts), and
chunks reach `transcribeAudioChunk` in strict arrival order: the chunks
already handed to it (completed ones followed by the in-flight one)
followed by the still-pending queue equal the arrival sequence, so an
earlier-enqueued chunk is always handed over before a later one. -/
theorem transcription_queue_fifo_single_flight (es : List QEvent) :
    ((qrun es).inFlight.isSome = (qrun es).isProcessingQueue) ∧
    (qrun es).processed ++ (qrun es).inFlight.toList ++ (qrun es).queue =
      arrivals es :=
  qrun_spec es

end C1

section C2

/-- Claim C2 counterexample: after a single `queueTranscription` call the
chunk has already been shifted out of the queue and is in flight, so at
that moment the guard at src/main.ts line 973 (`transcriptionQueue.length
> 0`) is false and `stopTranscription` returns without waiting — even
though the pipeline is not drained: a chunk is still in flight.
`stopRecording` then proceeds to `recorder.stop()` and `saveRecording`. -/
theorem stop_drain_claim_counterexample :
    stopTranscriptionAwaitsDrain (qrun [QEvent.enqueue 0]) = false ∧
    (qrun [QEvent.enqueue 0]).inFlight = some 0 ∧
    ¬ drained (qrun [QEvent.enqueue 0]) := by
  refine ⟨by decide, by decide, fun h => ?_⟩
  have h2 := h.2
  simp [qrun, qstep, queueTranscription, processStep, qinit] at h2

/-- Claim C2 (amended): `stopRecording` awaits the transcription drain
only when the pending queue is non-empty at the moment stop is requested;
the skip case can only occur with an empty queue (never with chunks still
queued), and when the wait loop is entered it releases only once the
queue is empty and no chunk is in flight (using the reachable-state
invariant tying `isProcessingQueue` to the in-flight chunk). -/
theorem stop_drain_amended (es : List QEvent) :
    (stopTranscriptionAwaitsDrain (qrun es) = false → (qrun es).queue = []) ∧
    (stopWaitLoopContinues (qrun es) = false → drained (qrun es)) := by
  constructor
  · intro h
    simp only [stopTranscriptionAwaitsDrain, decide_eq_false_iff_not, not_lt,
      Nat.le_zero] at h
    exact List.length_eq_zero.mp h
  · intro h
    simp only [stopWaitLoopContinues, Bool.or_eq_false_iff,
      decide_eq_false_iff_not, not_lt, Nat.le_zero] at h
    have hq : (qrun es).queue = [] := List.length_eq_zero.mp h.1
    have hinv := (qrun_spec es).1
    rw [h.2] at hinv
    exact ⟨hq, Option.not_isSome_iff_eq_none.mp (by simp [hinv])⟩

theorem stop_drain_amended_witness :
    (qrun [QEvent.enqueue 0, QEvent.complete]).queue = [] ∧
    drained (qrun [QEvent.enqueue 0, QEvent.complete]) :=
  ⟨(stop_drain_amended [QEvent.enqueue 0, QEvent.complete]).1 (by decide),
   (stop_drain_amended [QEvent.enqueue 0, QEvent.complete]).2 (by decide)⟩

end C2

section TranscriptLemmas

theorem transcribeAudioChunkStep_cases (st : TranscriptState) (o : ChunkOutcome) :
    transcribeAudioChunkStep st o = st ∨
    ∃ chunkText newText, newText ≠ [] ∧
      transcribeAudioChunkStep st o =
        ⟨st.transcriptionText ++ newText ++ [' '], chunkText⟩ := by
  cases o with
  | success raw =>
    simp only [transcribeAudioChunkStep, transcribeSuccessUpdate]
    split
    · split
      · next hnew => right; exact ⟨_, _, hnew, rfl⟩
      · left; rfl
    · left; rfl
  | whisperNotFound => left; rfl
  | pythonWhisperDetected => left; rfl
  | modelNotFound => left; rfl
  | spawnError => left; rfl
  | nonZeroExit code => left; rfl
  | outputFileMissing => left; rfl

end TranscriptLemmas

section C6

/-- Claim C6: a chunk whose transcription fails (recognizer not found,
model missing, spawn error, non-zero exit, or missing output file) leaves
both transcript accumulator fields exactly as they were, and — because the
`try`/`catch` inside the loop of `processTranscriptionQueue` swallows the
rejection — draining a queue with a failing chunk in the middle produces
the same transcript state as draining the queue without it: the failure
neither stops the queue nor changes what other chunks contribute. -/
theorem failed_chunk_skipped (st : TranscriptState) (o : ChunkOutcome)
    (os1 os2 : List ChunkOutcome) (hfail : o.isFailure = true) :
    transcribeAudioChunkStep st o = st ∧
    processTranscriptionQueueRun st (os1 ++ o :: os2) =
      processTranscriptionQueueRun st (os1 ++ os2) := by
  have hstep : ∀ s : TranscriptState, transcribeAudioChunkStep s o = s := by
    intro s
    cases o with
    | success raw => simp [ChunkOutcome.isFailure] at hfail
    | whisperNotFound => rfl
    | pythonWhisperDetected => rfl
    | modelNotFound => rfl
    | spawnError => rfl
    | nonZeroExit code => rfl
    | outputFileMissing => rfl
  refine ⟨hstep st, ?_⟩
  simp only [processTranscriptionQueueRun, List.foldl_append, List.foldl_cons]
  rw [hstep]

theorem failed_chunk_skipped_witness :
    transcribeAudioChunkStep ⟨[], []⟩ (ChunkOutcome.nonZeroExit 1) = ⟨[], []⟩ ∧
    processTranscriptionQueueRun ⟨[], []⟩
        ([] ++ ChunkOutcome.nonZeroExit 1 :: [ChunkOutcome.success "hi".toList]) =
      processTranscriptionQueueRun ⟨[], []⟩ ([] ++ [ChunkOutcome.success "hi".toList]) :=
  failed_chunk_skipped ⟨[], []⟩ (ChunkOutcome.nonZeroExit 1) []
    [ChunkOutcome.success "hi".toList] (by decide)

end C6

section C10

/-- Claim C10: the accumulated transcript grows monotonically — after any
single `transcribeAudioChunk` invocation the old `transcriptionText` is a
prefix of the new one (text is only appended, with a trailing space);
`lastTranscriptionText` changes only when a non-empty chunk text was
actually appended; a chunk step never empties a non-empty transcript,
`startTranscription` resets `transcriptionText` to empty, and
`stopTranscription` resets only `lastTranscriptionText`, leaving
`transcriptionText` untouched. -/
theorem transcript_monotone (st : TranscriptState) (o : ChunkOutcome) :
    (∃ suffix, (transcribeAudioChunkStep st o).transcriptionText =
        st.transcriptionText ++ suffix) ∧
    ((transcribeAudioChunkStep st o).lastTranscriptionText ≠
        st.lastTranscriptionText →
      ∃ added, added ≠ [] ∧
        (transcribeAudioChunkStep st o).transcriptionText =
          st.transcriptionText ++ added) ∧
    (st.transcriptionText ≠ [] →
      (transcribeAudioChunkStep st o).transcriptionText ≠ []) ∧
    (startTranscriptionReset st).transcriptionText = [] ∧
    (stopTranscriptionReset st).transcriptionText = st.transcriptionText := by
  rcases transcribeAudioChunkStep_cases st o with heq | ⟨ct, nt, hnt, heq⟩
  · rw [heq]
    exact ⟨⟨[], by simp⟩, fun hlast => absurd rfl hlast, fun h => h, rfl, rfl⟩
  · rw [heq]
    refine ⟨⟨nt ++ [' '], by simp⟩, fun _ => ⟨nt ++ [' '], by simp, by simp⟩,
      ?_, rfl, rfl⟩
    intro h hcontra
    simp only [List.append_assoc] at hcontra
    rcases List.append_eq_nil.mp hcontra with ⟨h1, -⟩
    exact h h1

theorem transcript_monotone_witness :
    (transcribeAudioChunkStep ⟨"a ".toList, "a".toList⟩
        (ChunkOutcome.success "b".toList)).lastTranscriptionText ≠
      ("a".toList : List Char) ∧
    ∃ added, added ≠ [] ∧
      (transcribeAudioChunkStep ⟨"a ".toList, "a".toList⟩
          (ChunkOutcome.success "b".toList)).transcriptionText =
        "a ".toList ++ added := by
  have hval : transcribeAudioChunkStep ⟨"a ".toList, "a".toList⟩
      (ChunkOutcome.success "b".toList) =
      ⟨"a ".toList ++ "b".toList ++ [' '], "b".toList⟩ := by
    simp [transcribeAudioChunkStep, transcribeSuccessUpdate, removeBlankAudio,
      blankAudioMarker, jsTrim, jsWhitespace, deduplicateTranscription,
      lowerTrim, jsToLower]
  have h := (transcript_monotone ⟨"a ".toList, "a".toList⟩
      (ChunkOutcome.success "b".toList)).2.1 (by rw [hval]; decide)
  exact ⟨by rw [hval]; decide, h⟩

end C10

section C7

/-- Claim C7 evaluated at the failing input: when the recognizer exits
non-zero after the chunk WAV file has been written, the rejected `await`
throws to the `catch` at src/main.ts line 894 and the cleanup block at
lines 883-893 never runs, so the temp WAV file is left on disk — the
cleanup is not reached on every failure path, contrary to the claim (and
to the specification's 'deletes temporary files afterward regardless of
success'), while the success and missing-output paths do clean up. -/
theorem temp_files_leaked_on_throw :
    transcribeAudioChunkTempFiles (ChunkOutcome.nonZeroExit 1) =
      ⟨true, false⟩ ∧
    cleanupReached (ChunkOutcome.nonZeroExit 1) = false ∧
    transcribeAudioChunkTempFiles (ChunkOutcome.modelNotFound) = ⟨true, false⟩ ∧
    (∀ raw, transcribeAudioChunkTempFiles (ChunkOutcome.success raw) =
      ⟨false, false⟩) ∧
    transcribeAudioChunkTempFiles ChunkOutcome.outputFileMissing =
      ⟨false, false⟩ :=
  ⟨rfl, rfl, rfl, fun _ => rfl, rfl⟩

end C7

section CaptureLemmas

theorem flatten_length_of_uniform {α : Type} (l : List (List α)) (k : ℕ)
    (h : ∀ x ∈ l, x.length = k) : l.flatten.length = k * l.length := by
  induction l with
  | nil => simp
  | cons x xs ih =>
    have hx : x.length = k := h x (by simp)
    have hxs := ih (fun y hy => h y (by simp [hy]))
    simp [hx, hxs, Nat.mul_succ, Nat.add_comm]

theorem flatten_singleton_if (c : List ℚ) :
    (if 0 < c.length then ([c] : List (List ℚ)) else []).flatten = c := by
  by_cases hc : 0 < c.length
  · rw [if_pos hc]
    simp
  · rw [if_neg hc]
    have hnil : c = [] := List.length_eq_zero.mp (by omega)
    simp [hnil]

theorem onAudioProcess_spec (S : ℕ) (st : CaptureState) (b : List ℚ)
    (hb : b.length ≤ samplesPerChunk S)
    (hbuf : st.transcriptionBuffer.flatten.length < samplesPerChunk S) :
    (onAudioProcess S st b).transcriptionBuffer.flatten.length <
        samplesPerChunk S ∧
    (onAudioProcess S st b).enqueuedChunks.flatten ++
        (onAudioProcess S st b).transcriptionBuffer.flatten =
      st.enqueuedChunks.flatten ++ st.transcriptionBuffer.flatten ++ b ∧
    (∀ ch ∈ (onAudioProcess S st b).enqueuedChunks,
      ch ∈ st.enqueuedChunks ∨ ch.length = samplesPerChunk S) := by
  have hsum : ((st.transcriptionBuffer ++ [b]).map List.length).sum =
      st.transcriptionBuffer.flatten.length + b.length := by
    simp [List.length_flatten]
  have hclen : (st.transcriptionBuffer ++ [b]).flatten.length =
      st.transcriptionBuffer.flatten.length + b.length := by
    rw [List.length_flatten, hsum]
  simp only [onAudioProcess]
  by_cases h : samplesPerChunk S ≤
      ((st.transcriptionBuffer ++ [b]).map List.length).sum
  · rw [if_pos h]
    rw [hsum] at h
    refine ⟨?_, ?_, ?_⟩
    · rw [flatten_singleton_if, List.length_drop, hclen]
      omega
    · rw [flatten_singleton_if]
      simp only [List.flatten_append, List.flatten_cons, List.flatten_nil,
        List.append_nil, List.append_assoc, List.take_append_drop]
    · intro ch hch
      rcases List.mem_append.mp hch with hin | hone
      · exact Or.inl hin
      · right
        have hch' : ch = (st.transcriptionBuffer ++ [b]).flatten.take
            (samplesPerChunk S) := by simpa using hone
        rw [hch', List.length_take, hclen]
        omega
  · rw [if_neg h]
    rw [hsum] at h
    refine ⟨?_, by simp, fun ch hch => Or.inl hch⟩
    rw [hclen]
    omega

theorem capture_foldl_spec (S : ℕ) (buffers : List (List ℚ)) :
    ∀ st : CaptureState,
      (∀ b ∈ buffers, b.length ≤ samplesPerChunk S) →
      st.transcriptionBuffer.flatten.length < samplesPerChunk S →
      (buffers.foldl (onAudioProcess S) st).transcriptionBuffer.flatten.length <
          samplesPerChunk S ∧
      (buffers.foldl (onAudioProcess S) st).enqueuedChunks.flatten ++
          (buffers.foldl (onAudioProcess S) st).transcriptionBuffer.flatten =
        st.enqueuedChunks.flatten ++ st.transcriptionBuffer.flatten ++
          buffers.flatten ∧
      (∀ ch ∈ (buffers.foldl (onAudioProcess S) st).enqueuedChunks,
        ch ∈ st.enqueuedChunks ∨ ch.length = samplesPerChunk S) := by
  induction buffers with
  | nil =>
    intro st _ hbuf
    exact ⟨hbuf, by simp, fun ch hch => Or.inl hch⟩
  | cons b rest ih =>
    intro st hb hbuf
    have hstep := onAudioProcess_spec S st b (hb b (by simp)) hbuf
    have hrest := ih (onAudioProcess S st b)
      (fun x hx => hb x (by simp [hx])) hstep.1
    refine ⟨hrest.1, ?_, ?_⟩
    · rw [List.foldl_cons, hrest.2.1, hstep.2.1]
      simp
    · intro ch hch
      rcases hrest.2.2 ch (by simpa using hch) with hin | hlen
      · rcases hstep.2.2 ch hin with hin' | hlen'
        · exact Or.inl hin'
        · exact Or.inr hlen'
      · exact Or.inr hlen

theorem single_buffer_one_chunk (b : List ℚ) (hlen : b.length = 5 * 44100) :
    (runCapture 44100 [b]).enqueuedChunks.length = 1 := by
  have hcond : samplesPerChunk 44100 ≤
      ((([] : List (List ℚ)) ++ [b]).map List.length).sum := by
    simp only [List.nil_append, List.map_cons, List.map_nil, List.sum_cons,
      List.sum_nil, samplesPerChunk, hlen]
    norm_num
  have hrun : runCapture 44100 [b] = onAudioProcess 44100 ⟨[], []⟩ b := by
    simp only [runCapture, List.foldl_cons, List.foldl_nil]
  rw [hrun]
  simp only [onAudioProcess]
  rw [if_pos hcond]
  simp only [List.nil_append, List.length_cons, List.length_nil]

end CaptureLemmas

section C8

/-- Claim C8 counterexample: the callback extracts at most one chunk per
invocation (src/main.ts lines 614-631 run the slice once, with no loop),
so a stream totalling 5 seconds delivered as a single buffer of
`5 * 44100` samples yields one enqueued chunk, not two — the claim as
stated quantifies over every stream shape totalling 5 seconds. -/
theorem five_second_single_buffer_counterexample :
    (runCapture 44100 [List.replicate (5 * 44100) (0 : ℚ)]).enqueuedChunks.length
      = 1 ∧
    (List.replicate (5 * 44100) (0 : ℚ)).length = 5 * 44100 := by
  exact ⟨single_buffer_one_chunk _ (by rw [List.length_replicate]),
    by rw [List.length_replicate]⟩

/-- Claim C8 (amended): for every stream of mono sample buffers totalling
`5 * 44100` samples in which each buffer carries at most one chunk length
(`2 * 44100` samples — the 4096-frame `ScriptProcessorNode` buffers the
code registers always do), the chunking logic enqueues exactly two chunks
of exactly `2 * 44100` samples each, in order (their concatenation
followed by the leftover buffer reproduces the input stream), carries the
remaining `44100` samples forward in the buffer, and never enqueues while
fewer than `2 * 44100` samples have accumulated. -/
theorem five_second_stream_two_chunks (buffers : List (List ℚ))
    (hb : ∀ b ∈ buffers, b.length ≤ samplesPerChunk 44100)
    (htotal : buffers.flatten.length = 5 * 44100) :
    (runCapture 44100 buffers).enqueuedChunks.length = 2 ∧
    (∀ ch ∈ (runCapture 44100 buffers).enqueuedChunks,
      ch.length = samplesPerChunk 44100) ∧
    (runCapture 44100 buffers).enqueuedChunks.flatten ++
        (runCapture 44100 buffers).transcriptionBuffer.flatten =
      buffers.flatten ∧
    (runCapture 44100 buffers).transcriptionBuffer.flatten.length = 44100 ∧
    (∀ (st : CaptureState) (b : List ℚ),
      st.transcriptionBuffer.flatten.length + b.length < samplesPerChunk 44100 →
      (onAudioProcess 44100 st b).enqueuedChunks = st.enqueuedChunks) := by
  have hrun := capture_foldl_spec 44100 buffers ⟨[], []⟩ hb
    (by simp [samplesPerChunk])
  have hlen : ∀ ch ∈ (runCapture 44100 buffers).enqueuedChunks,
      ch.length = samplesPerChunk 44100 := by
    intro ch hch
    rcases hrun.2.2 ch hch with hin | hl
    · simp at hin
    · exact hl
  have hconsv : (runCapture 44100 buffers).enqueuedChunks.flatten ++
      (runCapture 44100 buffers).transcriptionBuffer.flatten =
      buffers.flatten := by
    have := hrun.2.1
    simpa [runCapture] using this
  have huniform := flatten_length_of_uniform
    (runCapture 44100 buffers).enqueuedChunks (samplesPerChunk 44100) hlen
  have hlens : samplesPerChunk 44100 *
        (runCapture 44100 buffers).enqueuedChunks.length +
      (runCapture 44100 buffers).transcriptionBuffer.flatten.length =
      5 * 44100 := by
    have hl := congrArg List.length hconsv
    rw [List.length_append, huniform, htotal] at hl
    exact hl
  have hbc : (runCapture 44100 buffers).transcriptionBuffer.flatten.length <
      samplesPerChunk 44100 := by
    have := hrun.1
    simpa [runCapture] using this
  have hK : samplesPerChunk 44100 = 88200 := by norm_num [samplesPerChunk]
  rw [hK] at hlens hbc
  refine ⟨by omega, hlen, hconsv, by omega, ?_⟩
  intro st b hsmall
  have hsum : ((st.transcriptionBuffer ++ [b]).map List.length).sum =
      st.transcriptionBuffer.flatten.length + b.length := by
    simp [List.length_flatten]
  simp only [onAudioProcess]
  rw [if_neg (by rw [hsum]; exact Nat.not_le.mpr hsmall)]

theorem five_second_stream_two_chunks_witness :
    (runCapture 44100 [List.replicate 88200 (0 : ℚ), List.replicate 88200 (0 : ℚ),
        List.replicate 44100 (0 : ℚ)]).enqueuedChunks.length = 2 ∧
    (runCapture 44100 [List.replicate 88200 (0 : ℚ), List.replicate 88200 (0 : ℚ),
        List.replicate 44100 (0 : ℚ)]).transcriptionBuffer.flatten.length =
      44100 := by
  have hb : ∀ b ∈ [List.replicate 88200 (0 : ℚ), List.replicate 88200 (0 : ℚ),
      List.replicate 44100 (0 : ℚ)], b.length ≤ samplesPerChunk 44100 := by
    intro b hbmem
    rcases List.mem_cons.mp hbmem with rfl | hbmem
    · rw [List.length_replicate]
      norm_num [samplesPerChunk]
    rcases List.mem_cons.mp hbmem with rfl | hbmem
    · rw [List.length_replicate]
      norm_num [samplesPerChunk]
    rcases List.mem_cons.mp hbmem with rfl | hbmem
    · rw [List.length_replicate]
      norm_num [samplesPerChunk]
    · exact absurd hbmem (List.not_mem_nil b)
  have ht : ([List.replicate 88200 (0 : ℚ), List.replicate 88200 (0 : ℚ),
      List.replicate 44100 (0 : ℚ)]).flatten.length = 5 * 44100 := by
    simp only [List.flatten_cons, List.flatten_nil, List.append_nil,
      List.length_append, List.length_replicate]
  have h := five_second_stream_two_chunks _ hb ht
  exact ⟨h.1, h.2.2.2.1⟩

end C8

section WavLemmas

theorem resampleLength_self (len R : ℕ) (hR : 1 ≤ R) :
    resampleLength len R R = (len : ℤ) := by
  have hRq : ((R : ℚ)) ≠ 0 := by
    have : (0 : ℚ) < (R : ℚ) := by exact_mod_cast Nat.lt_of_lt_of_le Nat.zero_lt_one hR
    exact ne_of_gt this
  rw [resampleLength, jsRound, div_self hRq, div_one, Int.floor_nat_add]
  norm_num

theorem resample_length_self (d : List ℚ) (R : ℕ) (hR : 1 ≤ R) :
    (resample d R R).length = d.length := by
  simp only [resample, List.length_map, List.length_range,
    resampleLength_self _ _ hR, Int.toNat_natCast]

theorem le16i_length (v : ℤ) : (le16i v).length = 2 := rfl

end WavLemmas

section C4

/-- Claim C4: for a buffer of `N` mono samples encoded at rate `R` with
the capture rate equal to `R` (so the resampler's output count equals
`N`), the WAV bytes of `createWavFile` carry the literal tags `RIFF`,
`WAVE`, `fmt ` and `data` at offsets 0, 8, 12 and 36, PCM format 1,
channel count 1, sample rate `R`, 16 bits per sample, a data-chunk size
field of `2 * N` bytes, a RIFF size field of `36 + 2 * N`, a total length
of `44 + 2 * N` bytes, and a header parser recovers exactly `N` samples.
The size-field hypotheses keep the 32-bit little-endian fields below
`2 ^ 32`, where `setUint32` would wrap. -/
theorem createWavFile_header_roundtrip (audioData : List ℚ) (R : ℕ)
    (hR : 1 ≤ R) (hN : 36 + 2 * audioData.length < 4294967296)
    (hRsize : R < 4294967296) :
    ((createWavFile audioData R R).take 4 = asciiBytes "RIFF".toList ∧
     ((createWavFile audioData R R).drop 8).take 4 = asciiBytes "WAVE".toList ∧
     ((createWavFile audioData R R).drop 12).take 4 = asciiBytes "fmt ".toList ∧
     ((createWavFile audioData R R).drop 36).take 4 = asciiBytes "data".toList) ∧
    rd16 (createWavFile audioData R R) 20 = 1 ∧
    rd16 (createWavFile audioData R R) 22 = 1 ∧
    rd32 (createWavFile audioData R R) 24 = R ∧
    rd16 (createWavFile audioData R R) 34 = 16 ∧
    rd32 (createWavFile audioData R R) 40 = 2 * audioData.length ∧
    rd32 (createWavFile audioData R R) 4 = 36 + 2 * audioData.length ∧
    (createWavFile audioData R R).length = 44 + 2 * audioData.length ∧
    parsedSampleCount (createWavFile audioData R R) = audioData.length := by
  have hres : (resample audioData R R).length = audioData.length :=
    resample_length_self audioData R hR
  have hpay : ((resample audioData R R).map
      (fun x => le16i (floatTo16BitPCMSample x))).flatten.length =
      2 * audioData.length := by
    rw [flatten_length_of_uniform _ 2 (by
      intro x hx
      rcases List.mem_map.mp hx with ⟨y, -, rfl⟩
      exact le16i_length _), List.length_map, hres]
  have hriff : asciiBytes "RIFF".toList = [82, 73, 70, 70] := by decide
  have hwave : asciiBytes "WAVE".toList = [87, 65, 86, 69] := by decide
  have hfmt : asciiBytes "fmt ".toList = [102, 109, 116, 32] := by decide
  have hdata : asciiBytes "data".toList = [100, 97, 116, 97] := by decide
  simp only [createWavFile, parsedSampleCount, hres, hriff, hwave, hfmt, hdata,
    le32, le16, List.cons_append, List.nil_append, List.append_assoc]
  refine ⟨⟨?_, ?_, ?_, ?_⟩, ?_, ?_, ?_, ?_, ?_, ?_, ?_, ?_⟩ <;>
    simp only [rd16, rd32, List.getD_cons_zero, List.getD_cons_succ,
      List.take_succ_cons, List.take_zero, List.drop_succ_cons, List.drop_zero,
      List.length_cons, List.length_append, hres, hpay, hriff, hwave, hfmt,
      hdata] <;>
    first
      | omega
      | (norm_num
         omega)

theorem createWavFile_header_roundtrip_witness :
    rd32 (createWavFile [0, 0, 0] 16000 16000) 24 = 16000 ∧
    rd32 (createWavFile [0, 0, 0] 16000 16000) 40 = 2 * 3 ∧
    (createWavFile [0, 0, 0] 16000 16000).length = 44 + 2 * 3 ∧
    parsedSampleCount (createWavFile [0, 0, 0] 16000 16000) = 3 := by
  have h := createWavFile_header_roundtrip [0, 0, 0] 16000
    (by norm_num) (by norm_num) (by norm_num)
  exact ⟨h.2.2.2.1, h.2.2.2.2.2.1, h.2.2.2.2.2.2.2.1, h.2.2.2.2.2.2.2.2⟩

end C4

end SysAudio
